import Mathlib

/-!
# Verification of the agents-workshop orchestrator core

This file is a shallow embedding, in Lean 4, of the task-orchestration core
of the `agents-workshop` VS Code extension, together with proofs about the
claims of its specification.

The embedding translates the TypeScript sources:

* `src/agent/nodes.ts` — `selectNextSubtask`, `planExecution` (the JSON
  plan-parsing fallback chain), `synthesizeResults`;
* `src/agent/core/nodes/synthesis.ts` — the synthesizer with the
  single-result short circuit;
* `AgentWorker.ts` — the bounded tool-call loop (`executeWithToolLoop`,
  `execute`);
* `graph.ts` / the `Agent` class — the `isExecuting` mutual-exclusion guard
  and the result mapping delivered to the caller;
* `AgentExecutor.ts` (in `tools.ts`) — the second variant of the guard.

Asynchronous model/tool calls are modelled by passing the collaborator's
behaviour as an explicit argument (a function or an `Except` outcome:
`Except.error` stands for a thrown JS exception).  JavaScript truthiness of
optional strings is modelled explicitly (`none` and `""` are falsy).
-/

namespace AgentsWorkshop

/-! ## JavaScript-level string helpers -/

/-- Truthiness of a JS value of type `string | undefined | null`:
`undefined`, `null` and `""` are falsy. -/
def optTruthy : Option String → Bool
  | none => false
  | some s => s ≠ ""

/-- `a || b` for a JS string-or-undefined `a` with string default `b`. -/
def orDefault (o : Option String) (d : String) : String :=
  match o with
  | some s => if s ≠ "" then s else d
  | none => d

/-- `pre` is a prefix of `l` (character lists). -/
def listIsPrefixOf : List Char → List Char → Bool
  | [], _ => true
  | _ :: _, [] => false
  | p :: ps, c :: cs => p = c && listIsPrefixOf ps cs

/-- JS `String.prototype.startsWith`. -/
def strStartsWith (s pre : String) : Bool :=
  listIsPrefixOf pre.data s.data

/-- Characters treated as whitespace by JS `String.prototype.trim` and by
the regex class `\s` (restricted to the characters that occur in this
code base's data: space, tab, newline, carriage return, form feed,
vertical tab). -/
def isJsWs (c : Char) : Bool :=
  c = ' ' || c = '\t' || c = '\n' || c = '\r' || c = '\x0b' || c = '\x0c'

/-- JS `String.prototype.trim`. -/
def strTrim (s : String) : String :=
  ⟨(s.data.dropWhile isJsWs).reverse.dropWhile isJsWs |>.reverse⟩

/-- Drop the first `n` characters (JS `substring(n)`). -/
def strDrop (s : String) : Nat → String :=
  fun n => ⟨s.data.drop n⟩

/-- JS `String.prototype.includes`: `pat` occurs as a substring of `s`. -/
def listHasSub (pat : List Char) : List Char → Bool
  | [] => listIsPrefixOf pat []
  | c :: cs => listIsPrefixOf pat (c :: cs) || listHasSub pat cs

def strIncludes (s pat : String) : Bool :=
  listHasSub pat.data s.data

/-- Template-literal conversion of a thrown `Error` object
(`` `${error}` `` prints as `Error: <message>`). -/
def jsErrorToString (msg : String) : String :=
  "Error: " ++ msg

/-! ## Data model

`WorkerResponse` / `WorkerResult` is the outcome of one subtask
(`AgentWorker.ts`); `SubTask` is one unit of plan work (`state.ts`);
the `results` record of the run state is modelled as an association list
with unique keys, looked up by first match. -/

structure WorkerResponse where
  result : String
  success : Bool
  error : Option String := none
  toolsUsed : Option (List String) := none
deriving DecidableEq, Repr

structure SubTask where
  id : String
  type : String
  description : String
  task : String
  context : Option String := none
  dependsOn : Option (List String) := none
deriving DecidableEq, Repr

abbrev ResultsMap := List (String × WorkerResponse)

/-- Record access `results[key]` (keys are unique in a JS record). -/
def lookupR (m : ResultsMap) (k : String) : Option WorkerResponse :=
  (m.find? (fun p => p.fst = k)).map Prod.snd

/-- The LangGraph `END` routing token. -/
def ENDtoken : String := "__end__"

/-! ## `selectNextSubtask` (`nodes.ts`, lines 249–314) -/

/-- The partial state update returned by `selectNextSubtask`. -/
structure SelectUpdate where
  currentSubtask : Option SubTask := none
  nextStep : String
  error : Option String := none
deriving DecidableEq, Repr

/-- `state.subtasks.filter(task => !state.results[task.id])`. -/
def pendingSubtasks (subtasks : List SubTask) (results : ResultsMap) : List SubTask :=
  subtasks.filter (fun t => (lookupR results t.id).isNone)

/-- The eligibility predicate of the `eligibleSubtasks` filter:
no dependencies, or every dependency id has a recorded result. -/
def isEligible (results : ResultsMap) (t : SubTask) : Bool :=
  match t.dependsOn with
  | none => true
  | some [] => true
  | some ds => ds.all (fun d => (lookupR results d).isSome)

/-- `pendingSubtasks.filter(...)` — the eligible pending subtasks, in plan
emission order. -/
def eligibleSubtasks (subtasks : List SubTask) (results : ResultsMap) : List SubTask :=
  (pendingSubtasks subtasks results).filter (isEligible results)

/-- The imperative context accumulation of `selectNextSubtask`:
for each dependency id in order, append
`"Result from <id>:\n<result>\n\n"` when the recorded result has
`success` true and a non-empty `result` (JS truthiness of
`dependencyResult?.success && dependencyResult.result`), then append the
subtask's own static `context` when truthy; `context || undefined` at
the end. -/
def buildContext (results : ResultsMap) (t : SubTask) : Option String :=
  let ctx :=
    match t.dependsOn with
    | none => ""
    | some ds =>
        ds.foldl
          (fun acc d =>
            match lookupR results d with
            | some r =>
                if r.success && r.result ≠ "" then
                  acc ++ "Result from " ++ d ++ ":\n" ++ r.result ++ "\n\n"
                else acc
            | none => acc)
          ""
  let ctx :=
    match t.context with
    | some c => if c ≠ "" then ctx ++ c else ctx
    | none => ctx
  if ctx = "" then none else some ctx

/-- `getNodeForSubtaskType` (`nodes.ts`): unknown types default to the
analysis node. -/
def getNodeForSubtaskType (type : String) : String :=
  if type = "analysis" then "executeAnalysisTask"
  else if type = "generation" then "executeGenerationTask"
  else if type = "test" then "executeTestTask"
  else "executeAnalysisTask"

/-- `selectNextSubtask` (`nodes.ts`).  An absent `state.subtasks` behaves
exactly like the empty list here, so `subtasks` is modelled as a list. -/
def selectNextSubtask (subtasks : List SubTask) (results : ResultsMap) : SelectUpdate :=
  if subtasks.isEmpty then { nextStep := "synthesizeResults" }
  else
    let pending := pendingSubtasks subtasks results
    if pending.isEmpty then { nextStep := "synthesizeResults" }
    else
      match pending.filter (isEligible results) with
      | [] =>
          { error := some "No eligible subtasks to execute. There may be a dependency cycle."
            nextStep := "synthesizeResults" }
      | sel :: _ =>
          let updated := { sel with context := buildContext results sel }
          { currentSubtask := some updated
            nextStep := getNodeForSubtaskType updated.type }

end AgentsWorkshop
namespace AgentsWorkshop

theorem selectNextSubtask_selected_shape (subtasks : List SubTask) (results : ResultsMap)
    (s : SubTask)
    (h : (selectNextSubtask subtasks results).currentSubtask = some s) :
    ∃ sel rest, eligibleSubtasks subtasks results = sel :: rest ∧
      sel ∈ subtasks ∧ isEligible results sel = true ∧
      s = { sel with context := buildContext results sel } := by
  unfold selectNextSubtask at h
  by_cases h0 : subtasks.isEmpty
  · simp [h0] at h
  · rw [if_neg h0] at h
    by_cases h1 : (pendingSubtasks subtasks results).isEmpty
    · simp [h1] at h
    · rw [if_neg h1] at h
      rcases hfilter : (pendingSubtasks subtasks results).filter (isEligible results) with
        _ | ⟨sel, rest⟩
      · rw [hfilter] at h
        simp at h
      · rw [hfilter] at h
        simp only [Option.some.injEq] at h
        refine ⟨sel, rest, hfilter, ?_, ?_, h.symm⟩
        · have hmem : sel ∈ (pendingSubtasks subtasks results).filter (isEligible results) := by
            rw [hfilter]; exact List.mem_cons_self _ _
          have := List.mem_filter.mp hmem
          exact List.mem_of_mem_filter this.1
        · have hmem : sel ∈ (pendingSubtasks subtasks results).filter (isEligible results) := by
            rw [hfilter]; exact List.mem_cons_self _ _
          exact (List.mem_filter.mp hmem).2

end AgentsWorkshop
namespace AgentsWorkshop

/-- C4 -/
theorem selectNextSubtask_dependency_safety (subtasks : List SubTask) (results : ResultsMap) :
    (∀ s, (selectNextSubtask subtasks results).currentSubtask = some s →
       ∀ d ∈ s.dependsOn.getD [], (lookupR results d).isSome = true) ∧
    (∀ t ∈ subtasks, (lookupR results t.id).isNone = true → t.dependsOn.getD [] = [] →
       t ∈ eligibleSubtasks subtasks results) := by
  constructor
  · intro s hs d hd
    obtain ⟨sel, rest, _, _, helig, hform⟩ :=
      selectNextSubtask_selected_shape subtasks results s hs
    have hdep : s.dependsOn = sel.dependsOn := by rw [hform]
    rw [hdep] at hd
    unfold isEligible at helig
    cases hcase : sel.dependsOn with
    | none => rw [hcase] at hd; simp at hd
    | some ds =>
        rw [hcase] at hd helig
        cases ds with
        | nil => simp at hd
        | cons d0 ds0 =>
            simp only [Option.getD_some] at hd
            exact List.all_eq_true.mp helig d hd
  · intro t ht hpend hdep
    unfold eligibleSubtasks
    refine List.mem_filter.mpr ⟨?_, ?_⟩
    · unfold pendingSubtasks
      exact List.mem_filter.mpr ⟨ht, hpend⟩
    · unfold isEligible
      cases hcase : t.dependsOn with
      | none => rfl
      | some ds =>
          rw [hcase] at hdep
          simp only [Option.getD_some] at hdep
          subst hdep
          rfl

/-- witness for C4 -/
theorem selectNextSubtask_dependency_safety_witness :
    ({ id := "a", type := "analysis", description := "d", task := "t" } : SubTask) ∈
      eligibleSubtasks [{ id := "a", type := "analysis", description := "d", task := "t" }] [] := by
  have h := (selectNextSubtask_dependency_safety
    [{ id := "a", type := "analysis", description := "d", task := "t" }] []).2
  exact h _ (by decide) (by decide) (by decide)

end AgentsWorkshop
namespace AgentsWorkshop

/-- Concatenation of a list of strings, in order. -/
def concatList : List String → String
  | [] => ""
  | x :: xs => x ++ concatList xs

/-- Declarative form of the dependency-context concatenation: one
`"Result from <id>:\n<result>\n\n"` piece per dependency whose recorded
result succeeded with non-empty text, concatenated in `dependsOn` order. -/
def depContextJoin (results : ResultsMap) (ds : List String) : String :=
  concatList (ds.filterMap (fun d =>
    match lookupR results d with
    | some r =>
        if r.success && r.result ≠ "" then
          some ("Result from " ++ d ++ ":\n" ++ r.result ++ "\n\n")
        else none
    | none => none))

theorem foldl_context_eq (results : ResultsMap) (ds : List String) (acc : String) :
    ds.foldl
      (fun acc d =>
        match lookupR results d with
        | some r =>
            if r.success && r.result ≠ "" then
              acc ++ "Result from " ++ d ++ ":\n" ++ r.result ++ "\n\n"
            else acc
        | none => acc)
      acc
    = acc ++ depContextJoin results ds := by
  induction ds generalizing acc with
  | nil => simp [depContextJoin, concatList]
  | cons d ds ih =>
      simp only [List.foldl_cons]
      cases hl : lookupR results d with
      | none =>
          rw [ih]
          simp [depContextJoin, List.filterMap_cons, hl]
      | some r =>
          by_cases hs : (r.success && decide (r.result ≠ "")) = true
          · have hparts : r.success = true ∧ r.result ≠ "" := by
              simpa [Bool.and_eq_true, decide_eq_true_eq] using hs
            have hsucc := hparts.1
            have hne := hparts.2
            simp only [hl, hs, if_pos]
            rw [ih]
            simp [depContextJoin, List.filterMap_cons, hl, hsucc, hne, concatList,
              String.append_assoc]
          · have hno : ¬(r.success = true ∧ ¬r.result = "") := by
              simpa [Bool.and_eq_true, decide_eq_true_eq] using hs
            simp only [hl]
            rw [if_neg hs, ih]
            simp [depContextJoin, List.filterMap_cons, hl, hno]

end AgentsWorkshop
namespace AgentsWorkshop

theorem buildContext_eq (results : ResultsMap) (t : SubTask) :
    buildContext results t =
      (if depContextJoin results (t.dependsOn.getD []) ++ t.context.getD "" = "" then none
       else some (depContextJoin results (t.dependsOn.getD []) ++ t.context.getD "")) := by
  unfold buildContext
  cases hdep : t.dependsOn with
  | none =>
      cases hctx : t.context with
      | none => simp [depContextJoin, concatList]
      | some c =>
          by_cases hc : c = "" <;>
            simp [hc, depContextJoin, concatList]
  | some ds =>
      simp only [Option.getD_some]
      cases hctx : t.context with
      | none =>
          simp only [hctx]
          rw [foldl_context_eq]
          simp
      | some c =>
          simp only [hctx]
          rw [foldl_context_eq]
          by_cases hc : c = "" <;> simp [hc]

end AgentsWorkshop
namespace AgentsWorkshop

/-- C5 amended -/
theorem selectNext_context_assembly (subtasks : List SubTask) (results : ResultsMap)
    (s : SubTask)
    (h : (selectNextSubtask subtasks results).currentSubtask = some s) :
    ∃ t ∈ subtasks,
      s = { t with context :=
        (if depContextJoin results (t.dependsOn.getD []) ++ t.context.getD "" = "" then none
         else some (depContextJoin results (t.dependsOn.getD []) ++ t.context.getD "")) } := by
  obtain ⟨sel, rest, _, hmem, _, hform⟩ := selectNextSubtask_selected_shape subtasks results s h
  exact ⟨sel, hmem, by rw [hform, buildContext_eq]⟩

def w5A : SubTask := { id := "a", type := "analysis", description := "first", task := "do a" }

def w5B : SubTask :=
  { id := "b", type := "generation", description := "second", task := "do b"
    dependsOn := some ["a"] }

def w5Res : ResultsMap := [("a", { result := "ra", success := true })]

/-- C5 witness -/
theorem selectNext_context_assembly_witness :
    (selectNextSubtask [w5A, w5B] w5Res).currentSubtask =
        some { w5B with context := some "Result from a:\nra\n\n" } ∧
      ∃ t ∈ [w5A, w5B],
        ({ w5B with context := some "Result from a:\nra\n\n" } : SubTask) = { t with context :=
          (if depContextJoin w5Res (t.dependsOn.getD []) ++ t.context.getD "" = "" then none
           else some (depContextJoin w5Res (t.dependsOn.getD []) ++ t.context.getD "")) } :=
  ⟨by decide, selectNext_context_assembly [w5A, w5B] w5Res _ (by decide)⟩

/-- The context the claim predicts: a piece for every dependency whose
recorded result succeeded (no non-emptiness requirement), then the
subtask's own static context. -/
def contextPerClaim (results : ResultsMap) (t : SubTask) : String :=
  concatList ((t.dependsOn.getD []).filterMap (fun d =>
    match lookupR results d with
    | some r =>
        if r.success then some ("Result from " ++ d ++ ":\n" ++ r.result ++ "\n\n")
        else none
    | none => none)) ++ t.context.getD ""

def c5Dep : SubTask := { id := "d", type := "analysis", description := "dep", task := "t1" }

def c5Main : SubTask :=
  { id := "t2", type := "analysis", description := "main", task := "t2"
    dependsOn := some ["d"] }

def c5Res : ResultsMap := [("d", { result := "", success := true })]

/-- C5 counterexample -/
theorem selectNext_context_assembly_counterexample :
    (selectNextSubtask [c5Dep, c5Main] c5Res).currentSubtask = some c5Main ∧
      c5Main.context = none ∧
      contextPerClaim c5Res c5Main = "Result from d:\n\n\n" ∧
      c5Main.context ≠ some (contextPerClaim c5Res c5Main) := by
  refine ⟨by decide, by decide, by decide, by decide⟩

end AgentsWorkshop
namespace AgentsWorkshop

/-! ## A model of ECMAScript `JSON.parse`

`planExecution` (`nodes.ts`, lines 170–232) parses the planner LLM's
response with `JSON.parse` plus two regex-based extraction fallbacks.
`Json` is the parsed-value type; numbers keep their source lexeme (their
numeric value is never consumed by the orchestrator). -/

inductive Json where
  | null
  | bool (b : Bool)
  | num (lexeme : String)
  | str (s : String)
  | arr (elems : List Json)
  | obj (fields : List (String × Json))

/-- The opening brace character. -/
def lbrace : Char := Char.ofNat 123

/-- The closing brace character. -/
def rbrace : Char := Char.ofNat 125

/-- Whitespace accepted by `JSON.parse` between tokens. -/
def isJsonWs (c : Char) : Bool :=
  c = ' ' || c = '\t' || c = '\n' || c = '\r'

def hexVal (c : Char) : Option Nat :=
  if '0' ≤ c ∧ c ≤ '9' then some (c.toNat - '0'.toNat)
  else if 'a' ≤ c ∧ c ≤ 'f' then some (c.toNat - 'a'.toNat + 10)
  else if 'A' ≤ c ∧ c ≤ 'F' then some (c.toNat - 'A'.toNat + 10)
  else none

def isDigit (c : Char) : Bool := '0' ≤ c && c ≤ '9'

/-- Body of a JSON string after the opening quote: returns the decoded
characters and the input remaining after the closing quote.  Unescaped
control characters are rejected, as in `JSON.parse`.  (Lone surrogates
from `\uXXXX` cannot be represented in a Lean `Char`; none occur in the
data considered here.) -/
def parseStringBody : Nat → List Char → Option (List Char × List Char)
  | 0, _ => none
  | _ + 1, [] => none
  | fuel + 1, c :: cs =>
    let cont (ch : Char) (rest : List Char) : Option (List Char × List Char) :=
      match parseStringBody fuel rest with
      | some (body, rem) => some (ch :: body, rem)
      | none => none
    if c = '"' then some ([], cs)
    else if c = '\\' then
      match cs with
      | [] => none
      | e :: cs2 =>
        if e = '"' then cont '"' cs2
        else if e = '\\' then cont '\\' cs2
        else if e = '/' then cont '/' cs2
        else if e = 'b' then cont '\x08' cs2
        else if e = 'f' then cont '\x0c' cs2
        else if e = 'n' then cont '\n' cs2
        else if e = 'r' then cont '\r' cs2
        else if e = 't' then cont '\t' cs2
        else if e = 'u' then
          match cs2 with
          | a :: b :: c3 :: d :: cs3 =>
            match hexVal a, hexVal b, hexVal c3, hexVal d with
            | some x, some y, some z, some w =>
                cont (Char.ofNat (((x * 16 + y) * 16 + z) * 16 + w)) cs3
            | _, _, _, _ => none
          | _ => none
        else none
    else if c.toNat < 32 then none
    else cont c cs

/-- A JSON number token (`-? int frac? exp?`): returns the lexeme and the
remaining input. -/
def parseNumberToken (cs : List Char) : Option (List Char × List Char) :=
  let (sign, cs1) :=
    match cs with
    | '-' :: r => (['-'], r)
    | _ => (([] : List Char), cs)
  match cs1 with
  | [] => none
  | c :: _ =>
    if ¬ isDigit c then none
    else
      let (intPart, rest2) :=
        if c = '0' then (['0'], cs1.drop 1)
        else (cs1.takeWhile isDigit, cs1.dropWhile isDigit)
      let fracStep : Option (List Char × List Char) :=
        match rest2 with
        | '.' :: r =>
            let ds := r.takeWhile isDigit
            if ds.isEmpty then none else some ('.' :: ds, r.dropWhile isDigit)
        | _ => some ([], rest2)
      match fracStep with
      | none => none
      | some (fracPart, rest3) =>
        let expStep : Option (List Char × List Char) :=
          match rest3 with
          | e :: r =>
            if e = 'e' ∨ e = 'E' then
              let (sgn, r2) :=
                match r with
                | '+' :: rr => (['+'], rr)
                | '-' :: rr => (['-'], rr)
                | _ => (([] : List Char), r)
              let ds := r2.takeWhile isDigit
              if ds.isEmpty then none
              else some (e :: (sgn ++ ds), r2.dropWhile isDigit)
            else some ([], rest3)
          | [] => some ([], rest3)
        match expStep with
        | none => none
        | some (expPart, rest4) =>
            some (sign ++ intPart ++ fracPart ++ expPart, rest4)

mutual

/-- One JSON value starting at the head of the input (leading whitespace
already skipped); returns the value and the remaining input. -/
def parseJsonValue : Nat → List Char → Option (Json × List Char)
  | 0, _ => none
  | fuel + 1, cs =>
    match cs with
    | [] => none
    | c :: rest =>
      if c = 'n' then
        if listIsPrefixOf "ull".data rest then some (.null, rest.drop 3) else none
      else if c = 't' then
        if listIsPrefixOf "rue".data rest then some (.bool true, rest.drop 3) else none
      else if c = 'f' then
        if listIsPrefixOf "alse".data rest then some (.bool false, rest.drop 4) else none
      else if c = '"' then
        match parseStringBody (rest.length + 1) rest with
        | some (body, rem) => some (.str ⟨body⟩, rem)
        | none => none
      else if c = '[' then
        match rest.dropWhile isJsonWs with
        | ']' :: rem => some (.arr [], rem)
        | rest1 =>
          match parseJsonElems fuel rest1 with
          | some (xs, rem) => some (.arr xs, rem)
          | none => none
      else if c = lbrace then
        match rest.dropWhile isJsonWs with
        | [] => none
        | r :: rem =>
          if r = rbrace then some (.obj [], rem)
          else
            match parseJsonFields fuel (r :: rem) with
            | some (fs, rem2) => some (.obj fs, rem2)
            | none => none
      else
        match parseNumberToken cs with
        | some (lex, rem) => some (.num ⟨lex⟩, rem)
        | none => none

/-- Comma-separated JSON array elements up to and past the closing
bracket. -/
def parseJsonElems : Nat → List Char → Option (List Json × List Char)
  | 0, _ => none
  | fuel + 1, cs =>
    match parseJsonValue fuel cs with
    | none => none
    | some (v, rest) =>
      match rest.dropWhile isJsonWs with
      | ',' :: rest2 =>
        match parseJsonElems fuel (rest2.dropWhile isJsonWs) with
        | some (xs, rem) => some (v :: xs, rem)
        | none => none
      | ']' :: rem => some ([v], rem)
      | _ => none

/-- `"key": value` JSON object members up to and past the closing
brace. -/
def parseJsonFields : Nat → List Char → Option (List (String × Json) × List Char)
  | 0, _ => none
  | fuel + 1, cs =>
    match cs with
    | '"' :: rest =>
      match parseStringBody (rest.length + 1) rest with
      | none => none
      | some (key, rest1) =>
        match rest1.dropWhile isJsonWs with
        | ':' :: rest2 =>
          match parseJsonValue fuel (rest2.dropWhile isJsonWs) with
          | none => none
          | some (v, rest3) =>
            match rest3.dropWhile isJsonWs with
            | ',' :: rest4 =>
              match parseJsonFields fuel (rest4.dropWhile isJsonWs) with
              | some (fs, rem) => some ((⟨key⟩, v) :: fs, rem)
              | none => none
            | r :: rem =>
              if r = rbrace then some ([(⟨key⟩, v)], rem) else none
            | [] => none
        | _ => none
    | _ => none

end

/-- `JSON.parse`: a single JSON value surrounded only by whitespace. -/
def jsonParse (s : String) : Option Json :=
  let cs := s.data.dropWhile isJsonWs
  match parseJsonValue (2 * cs.length + 2) cs with
  | some (v, rest) => if (rest.dropWhile isJsonWs).isEmpty then some v else none
  | none => none

end AgentsWorkshop
namespace AgentsWorkshop

/-- A JSON number is falsy in JS iff its value is zero: every mantissa
digit of the lexeme is `0`. -/
def numLexemeIsZero (lex : String) : Bool :=
  ((lex.data.dropWhile (fun c => c = '-')).takeWhile
      (fun c => c ≠ 'e' ∧ c ≠ 'E')).all
    (fun c => c = '0' || c = '.')

/-- JS truthiness of a parsed JSON value. -/
def Json.truthy : Json → Bool
  | .null => false
  | .bool b => b
  | .num lex => !(numLexemeIsZero lex)
  | .str s => s ≠ ""
  | .arr _ => true
  | .obj _ => true

/-- Property access `j.key` on a parsed value (for duplicate keys,
`JSON.parse` keeps the last occurrence). -/
def Json.getField : Json → String → Option Json
  | .obj fields, k => ((fields.reverse).find? (fun p => p.fst = k)).map Prod.snd
  | _, _ => none

def Json.isArr : Json → Bool
  | .arr _ => true
  | _ => false

/-- `parsedJson.plan || "No plan summary provided"`. -/
def planOf (j : Json) : Json :=
  match j.getField "plan" with
  | some p => if p.truthy then p else .str "No plan summary provided"
  | none => .str "No plan summary provided"

/-- One parse-and-validate attempt of the fallback chain: `JSON.parse`
succeeds, and `parsedJson && parsedJson.subTasks &&
Array.isArray(parsedJson.subTasks)` holds; yields the plan summary and
the raw `subTasks` array. -/
def extractPlan (content : String) : Option (Json × List Json) :=
  match jsonParse content with
  | none => none
  | some j =>
    if j.truthy then
      match j.getField "subTasks" with
      | some st =>
          if st.truthy then
            match st with
            | .arr xs => some (planOf j, xs)
            | _ => none
          else none
      | none => none
    else none

/-! ## The two regex extractions of `planExecution` -/

/-- Split `l` at the first occurrence of `pat`: the part before it and
the part after it. -/
def splitAtSub (pat : List Char) : List Char → Option (List Char × List Char)
  | [] => if pat.isEmpty then some ([], []) else none
  | c :: cs =>
    if listIsPrefixOf pat (c :: cs) then some ([], (c :: cs).drop pat.length)
    else
      match splitAtSub pat cs with
      | some (pre, post) => some (c :: pre, post)
      | none => none

def dropTrailingWs (cs : List Char) : List Char :=
  (cs.reverse.dropWhile isJsWs).reverse

/-- The regex match `content.match(/```(?:json)?\s*([\s\S]*?)\s*```/)`,
capture group 1: between the first fence (after an optional literal
`json` tag and leading whitespace) and the next fence, with trailing
whitespace assigned to `\s*` rather than the lazy capture. -/
def fencedExtract (content : String) : Option String :=
  match splitAtSub "```".data content.data with
  | none => none
  | some (_, afterOpen) =>
    let afterTag :=
      if listIsPrefixOf "json".data afterOpen then afterOpen.drop 4 else afterOpen
    let body := afterTag.dropWhile isJsWs
    match splitAtSub "```".data body with
    | none => none
    | some (cap, _) => some ⟨dropTrailingWs cap⟩

/-- The regex match `content.match(/{[\s\S]*?}/)`, i.e. the span from the
first opening brace to the first closing brace after it (the lazy
quantifier stops at the first possible closing brace). -/
def lazyBraceExtract (content : String) : Option String :=
  match splitAtSub [lbrace] content.data with
  | none => none
  | some (_, afterBrace) =>
    match splitAtSub [rbrace] afterBrace with
    | none => none
    | some (mid, _) => some ⟨lbrace :: (mid ++ [rbrace])⟩

/-- Chars up to and including the brace that closes an open depth of
`depth`; `none` when the braces never balance. -/
def matchBraces : Nat → List Char → Option (List Char)
  | _, [] => none
  | depth, c :: cs =>
    if c = rbrace then
      if depth = 1 then some [c]
      else (matchBraces (depth - 1) cs).map (fun l => c :: l)
    else if c = lbrace then (matchBraces (depth + 1) cs).map (fun l => c :: l)
    else (matchBraces depth cs).map (fun l => c :: l)

/-- Modelled from the claim's words, for comparison with
`lazyBraceExtract`: "the first top-level `{...}` span", i.e. the
balanced-brace span starting at the first opening brace. -/
def topLevelBraceSpan (content : String) : Option String :=
  match splitAtSub [lbrace] content.data with
  | none => none
  | some (_, afterBrace) =>
      (matchBraces 1 afterBrace).map (fun span => ⟨lbrace :: span⟩)

/-! ## `planExecution`'s parsing pipeline (`nodes.ts`, lines 170–232) -/

/-- The partial state update produced by the parsing stage of
`planExecution`. -/
structure PlanUpdate where
  plan : Option Json := none
  subtasks : Option (List Json) := none
  error : Option String := none
  nextStep : String

def planParseErrMsg : String :=
  "Could not parse a valid JSON plan from the LLM response. Try running the query again."

def planSuccessUpdate (p : Json) (sts : List Json) : PlanUpdate :=
  { plan := some p, subtasks := some sts, nextStep := "selectNextSubtask" }

/-- Stage 1: direct `JSON.parse` of the full response, validated. -/
def planStageDirect (content : String) : Option (Json × List Json) :=
  extractPlan content

/-- Stage 2: the fenced-code-block extraction (the extracted capture
must itself be truthy: `jsonMatch && jsonMatch[1]`), validated. -/
def planStageFenced (content : String) : Option (Json × List Json) :=
  match fencedExtract content with
  | some blk => if blk ≠ "" then extractPlan blk else none
  | none => none

/-- Stage 3: the lazy first-brace-to-first-brace extraction,
validated. -/
def planStageBrace (content : String) : Option (Json × List Json) :=
  (lazyBraceExtract content).bind extractPlan

/-- The parsing section of `planExecution`: the three stages in source
order, falling through on any failure; all three failing yields the
user-facing planning error routed to `END`.  Every `JSON.parse`
exception is caught stage-locally, so the function is total. -/
def planParseContent (content : String) : PlanUpdate :=
  match extractPlan content with
  | some (p, sts) => planSuccessUpdate p sts
  | none =>
    let viaFence :=
      match fencedExtract content with
      | some blk => if blk ≠ "" then extractPlan blk else none
      | none => none
    match viaFence with
    | some (p, sts) => planSuccessUpdate p sts
    | none =>
      match (lazyBraceExtract content).bind extractPlan with
      | some (p, sts) => planSuccessUpdate p sts
      | none => { error := some planParseErrMsg, nextStep := ENDtoken }

end AgentsWorkshop
namespace AgentsWorkshop

/-- C6 amended -/
theorem planParse_pipeline (content : String) :
    (planParseContent content =
      match (planStageDirect content) <|> (planStageFenced content) <|> (planStageBrace content) with
      | some (p, sts) => planSuccessUpdate p sts
      | none => { error := some planParseErrMsg, nextStep := ENDtoken }) ∧
    (planStageDirect content = none → planStageFenced content = none →
      planStageBrace content = none →
      (planParseContent content).error = some planParseErrMsg ∧
        (planParseContent content).nextStep = ENDtoken) := by
  have hmain : planParseContent content =
      match (planStageDirect content) <|> (planStageFenced content) <|> (planStageBrace content) with
      | some (p, sts) => planSuccessUpdate p sts
      | none => { error := some planParseErrMsg, nextStep := ENDtoken } := by
    unfold planParseContent planStageDirect planStageFenced planStageBrace
    cases h1 : extractPlan content with
    | some v => simp [Option.orElse]
    | none =>
      cases h2 : fencedExtract content with
      | some blk =>
        by_cases hb : blk = ""
        · subst hb
          simp [Option.orElse]
        · simp only [h2, Option.orElse]
          cases h4 : extractPlan blk with
          | some v => simp [hb, h4]
          | none => simp [hb, h4]
      | none => simp [Option.orElse]
  refine ⟨hmain, fun h1 h2 h3 => ?_⟩
  rw [hmain]
  simp [h1, h2, h3, Option.orElse]

end AgentsWorkshop
namespace AgentsWorkshop

/-- witness for C6 -/
theorem planParse_pipeline_witness :
    planStageDirect "hello" = none ∧ planStageFenced "hello" = none ∧
      planStageBrace "hello" = none ∧
      (planParseContent "hello").error = some planParseErrMsg ∧
      (planParseContent "hello").nextStep = ENDtoken := by
  have h := (planParse_pipeline "hello").2 rfl rfl rfl
  exact ⟨rfl, rfl, rfl, h.1, h.2⟩

/-- A planner response whose JSON plan is preceded by prose and contains
a nested object. -/
def c6Content : String := "Plan: \x7b\"plan\":\"p\",\"subTasks\":[\x7b\"id\":\"a\"\x7d]\x7d"

/-- C6 counterexample -/
theorem planParse_counterexample :
    (planParseContent c6Content).error = some planParseErrMsg ∧
      (planParseContent c6Content).nextStep = ENDtoken ∧
      lazyBraceExtract c6Content =
        some "\x7b\"plan\":\"p\",\"subTasks\":[\x7b\"id\":\"a\"\x7d" ∧
      topLevelBraceSpan c6Content =
        some "\x7b\"plan\":\"p\",\"subTasks\":[\x7b\"id\":\"a\"\x7d]\x7d" ∧
      ((topLevelBraceSpan c6Content).bind extractPlan).isSome = true :=
  ⟨rfl, rfl, rfl, rfl, rfl⟩

end AgentsWorkshop
namespace AgentsWorkshop

/-! ## `synthesizeResults` (`core/nodes/synthesis.ts`) -/

/-- The partial state update produced by `synthesizeResults`. -/
structure SynthUpdate where
  finalResult : Option String := none
  error : Option String := none
  nextStep : String
deriving DecidableEq, Repr

/-- The remainder after the first `"\n\n"`, where every character before
it must be a non-newline (the lazy `.*?` of `/^## .*?\n\n/` cannot cross
a newline, so a single newline not followed by a second one makes the
whole regex fail). -/
def stripAfterHash : List Char → Option (List Char)
  | [] => none
  | c :: rest =>
    if c = '\n' then
      match rest with
      | r :: rs => if r = '\n' then some rs else none
      | [] => none
    else stripAfterHash rest

/-- `s.replace(/^## .*?\n\n/, '')`: remove a leading `## …` heading
through its blank line, if the regex matches; otherwise `s` unchanged. -/
def stripLeadingHeading (s : String) : String :=
  match s.data with
  | '#' :: '#' :: ' ' :: rest =>
    match stripAfterHash rest with
    | some r => ⟨r⟩
    | none => s
  | _ => s

/-- `Array.prototype.join` with separator `sep`. -/
def joinSep (sep : String) : List String → String
  | [] => ""
  | [x] => x
  | x :: y :: xs => x ++ sep ++ joinSep sep (y :: xs)

/-- The `allResults` accumulation of `synthesizeResults`: one titled
section per stage key whose recorded result is present and successful,
in the fixed order analysis, generation, test. -/
def synthGather (results : ResultsMap) : List String :=
  (match lookupR results "analysis" with
   | some r => if r.success then ["## Analysis Results\n\n" ++ r.result ++ "\n"] else []
   | none => []) ++
  (match lookupR results "generation" with
   | some r => if r.success then ["## Generation Results\n\n" ++ r.result ++ "\n"] else []
   | none => []) ++
  (match lookupR results "test" with
   | some r => if r.success then ["## Testing Results\n\n" ++ r.result ++ "\n"] else []
   | none => [])

/-- The catch handler of `synthesizeResults`. -/
def synthCatch (e : String) : SynthUpdate :=
  { error := some ("Error synthesizing results: " ++ jsErrorToString e)
    finalResult := some ("Failed to synthesize results due to error: " ++ jsErrorToString e)
    nextStep := ENDtoken }

/-- `synthesizeResults` (`core/nodes/synthesis.ts`).  `llm` is the
synthesis model applied to the user prompt (`Except.error` = the call
threw); the returned `Bool` records whether the model was invoked. -/
def synthesizeResults (apiKey : Option String) (results : ResultsMap)
    (taskQuery : Option String) (llm : String → Except String String) :
    SynthUpdate × Bool :=
  if optTruthy apiKey = false then
    ({ error := some "No API key found"
       finalResult := some "Could not synthesize results: API key missing"
       nextStep := ENDtoken }, false)
  else
    let allResults := synthGather results
    if allResults.isEmpty then
      ({ finalResult := some "No results available to synthesize.", nextStep := ENDtoken }, false)
    else if allResults.length = 1 then
      ({ finalResult := some (stripLeadingHeading (allResults.headD "")), nextStep := ENDtoken }, false)
    else
      let combinedResults := joinSep "\n---\n\n" allResults
      let userPrompt := "Original request: " ++ taskQuery.getD "undefined" ++
        "\n\nTask results to synthesize:\n\n" ++ combinedResults ++
        "\n\nPlease synthesize these results into a unified response."
      match llm userPrompt with
      | .error e => (synthCatch e, true)
      | .ok content =>
          if content = "" then (synthCatch "Empty response from LLM API", true)
          else ({ finalResult := some content, nextStep := ENDtoken }, true)

/-- The three stage keys and their section titles, in gathering order. -/
def synthRoles : List (String × String) :=
  [("analysis", "Analysis"), ("generation", "Generation"), ("test", "Testing")]

/-- The successful entries of the results mapping, restricted to the
three stage keys the synthesizer reads. -/
def successfulStages (results : ResultsMap) : List (String × String × WorkerResponse) :=
  synthRoles.filterMap (fun kt =>
    match lookupR results kt.1 with
    | some r => if r.success then some (kt.1, kt.2, r) else none
    | none => none)

end AgentsWorkshop
namespace AgentsWorkshop

theorem stripAfterHash_append (hd : List Char) (xs : List Char)
    (hhd : ∀ c ∈ hd, c ≠ '\n') :
    stripAfterHash (hd ++ '\n' :: '\n' :: xs) = some xs := by
  induction hd with
  | nil => rfl
  | cons c cs ih =>
      have hc : c ≠ '\n' := hhd c (List.mem_cons_self _ _)
      simp only [List.cons_append, stripAfterHash, if_neg hc]
      exact ih (fun d hd => hhd d (List.mem_cons_of_mem _ hd))

theorem stripLeadingHeading_of_data (s : String) (hd : List Char) (x : String)
    (hhd : ∀ c ∈ hd, c ≠ '\n')
    (h : s.data = '#' :: '#' :: ' ' :: (hd ++ '\n' :: '\n' :: x.data)) :
    stripLeadingHeading s = x := by
  unfold stripLeadingHeading
  rw [h]
  simp [stripAfterHash_append hd x.data hhd]

example (r : WorkerResponse) :
    stripLeadingHeading ("## Analysis Results\n\n" ++ r.result ++ "\n") = r.result ++ "\n" := by
  apply stripLeadingHeading_of_data _ ("Analysis Results".data) _ (by decide)
  simp [String.data_append]

theorem litSectionAnalysis : ("## " ++ "Analysis") ++ " Results\n\n" = "## Analysis Results\n\n" := by decide

theorem litSectionGeneration : ("## " ++ "Generation") ++ " Results\n\n" = "## Generation Results\n\n" := by decide

theorem litSectionTesting : ("## " ++ "Testing") ++ " Results\n\n" = "## Testing Results\n\n" := by decide

theorem synthGather_eq (results : ResultsMap) :
    synthGather results =
      (successfulStages results).map
        (fun e => "## " ++ e.2.1 ++ " Results\n\n" ++ e.2.2.result ++ "\n") := by
  unfold synthGather successfulStages synthRoles
  cases h1 : lookupR results "analysis" <;>
    cases h2 : lookupR results "generation" <;>
      cases h3 : lookupR results "test" <;>
        simp only [List.filterMap_cons, List.filterMap_nil, h1, h2, h3] <;>
          (try split_ifs) <;>
            simp_all [litSectionAnalysis, litSectionGeneration, litSectionTesting]

end AgentsWorkshop
namespace AgentsWorkshop

theorem strip_analysis (x : String) :
    stripLeadingHeading ("## Analysis Results\n\n" ++ x) = x :=
  stripLeadingHeading_of_data _ ("Analysis Results".data) _ (by decide)
    (by simp [String.data_append])

theorem strip_generation (x : String) :
    stripLeadingHeading ("## Generation Results\n\n" ++ x) = x :=
  stripLeadingHeading_of_data _ ("Generation Results".data) _ (by decide)
    (by simp [String.data_append])

theorem strip_testing (x : String) :
    stripLeadingHeading ("## Testing Results\n\n" ++ x) = x :=
  stripLeadingHeading_of_data _ ("Testing Results".data) _ (by decide)
    (by simp [String.data_append])

/-- C1 amended -/
theorem synthesize_single_result (apiKey : Option String) (results : ResultsMap)
    (taskQuery : Option String) (llm : String → Except String String) :
    (∀ k t r, optTruthy apiKey = true → successfulStages results = [(k, t, r)] →
       synthesizeResults apiKey results taskQuery llm =
         ({ finalResult := some (r.result ++ "\n"), nextStep := ENDtoken }, false)) ∧
    ((synthesizeResults apiKey results taskQuery llm).2 = true →
       2 ≤ (successfulStages results).length) := by
  constructor
  · intro k t r hkey hone
    have hgt : synthGather results = ["## " ++ t ++ " Results\n\n" ++ r.result ++ "\n"] := by
      rw [synthGather_eq, hone]; rfl
    have hmem : (k, t, r) ∈ successfulStages results := by
      rw [hone]; exact List.mem_cons_self _ _
    obtain ⟨kt, hkt, heq⟩ := List.mem_filterMap.mp hmem
    have hts : kt.2 = t := by
      cases hl : lookupR results kt.1 with
      | none => rw [hl] at heq; cases heq
      | some r0 =>
          rw [hl] at heq
          by_cases hs : r0.success = true
          · simp [hs] at heq
            exact heq.2.1
          · simp [hs] at heq
    fin_cases hkt <;> simp only at hts <;> subst hts
    · simp [synthesizeResults, hkey, hgt]
      exact strip_analysis _
    · simp [synthesizeResults, hkey, hgt]
      exact strip_generation _
    · simp [synthesizeResults, hkey, hgt]
      exact strip_testing _
  · intro hcall
    by_cases hkey : optTruthy apiKey = false
    · simp [synthesizeResults, hkey] at hcall
    · by_cases he : (synthGather results).isEmpty
      · simp [synthesizeResults, hkey, he] at hcall
      · by_cases h1 : (synthGather results).length = 1
        · simp [synthesizeResults, hkey, he, h1] at hcall
        · have h2 : 2 ≤ (synthGather results).length := by
            cases hg : synthGather results with
            | nil => rw [hg] at he; simp at he
            | cons a l =>
                cases l with
                | nil => rw [hg] at h1; simp at h1
                | cons b m => simp
          rw [synthGather_eq, List.length_map] at h2
          exact h2

end AgentsWorkshop
namespace AgentsWorkshop

def w1Res : ResultsMap := [("analysis", { result := "hello", success := true })]

/-- witness for C1 -/
theorem synthesize_single_result_witness :
    successfulStages w1Res = [("analysis", "Analysis", { result := "hello", success := true })] ∧
      optTruthy (some "key") = true ∧
      synthesizeResults (some "key") w1Res (some "q") (fun _ => .ok "unused") =
        ({ finalResult := some ("hello" ++ "\n"), nextStep := ENDtoken }, false) := by
  refine ⟨by decide, by decide, ?_⟩
  exact (synthesize_single_result (some "key") w1Res (some "q") (fun _ => .ok "unused")).1
    "analysis" "Analysis" { result := "hello", success := true } (by decide) (by decide)

/-- C1 counterexample -/
theorem synthesize_single_result_counterexample :
    (synthesizeResults (some "key") w1Res (some "q") (fun _ => .ok "unused")).1.finalResult =
        some "hello\n" ∧
      (synthesizeResults (some "key") w1Res (some "q") (fun _ => .ok "unused")).2 = false ∧
      some "hello\n" ≠ some ("hello" : String) :=
  ⟨rfl, rfl, by decide⟩

end AgentsWorkshop
namespace AgentsWorkshop

/-! ## `AgentWorker` — the bounded tool-call loop

The model (`callLLM`) is an oracle mapping the current message list to an
`LLMResponse` (or a thrown error); tools are records whose `exec` models
`tool.execute` applied to the call's arguments (the per-name argument
projection of `executeToolWithArgs` is absorbed into `exec`). -/

inductive Role where
  | system | user | assistant | tool
deriving DecidableEq, Repr

structure WorkerMessage where
  role : Role
  content : String
  toolName : Option String := none
  toolCallId : Option String := none
deriving DecidableEq, Repr

structure ToolCall where
  name : String
  id : String
  arguments : List (String × String)
deriving DecidableEq, Repr

structure LLMResponse where
  content : String
  toolCalls : Option (List ToolCall)
deriving DecidableEq, Repr

structure ToolResult where
  success : Bool
  data : Option Json := none
  error : Option String := none

structure AgentTool where
  name : String
  exec : List (String × String) → Except String ToolResult

structure WorkerRequest where
  task : String
  context : Option String := none
  systemPrompt : Option String := none

/-! ### `JSON.stringify` on the values this code serializes -/

def hexDigit (n : Nat) : Char :=
  if n < 10 then Char.ofNat ('0'.toNat + n) else Char.ofNat ('a'.toNat + (n - 10))

def jsonEscapeChar (c : Char) : List Char :=
  if c = '"' then ['\\', '"']
  else if c = '\\' then ['\\', '\\']
  else if c = '\x08' then ['\\', 'b']
  else if c = '\x0c' then ['\\', 'f']
  else if c = '\n' then ['\\', 'n']
  else if c = '\r' then ['\\', 'r']
  else if c = '\t' then ['\\', 't']
  else if c.toNat < 32 then
    ['\\', 'u', '0', '0', hexDigit (c.toNat / 16), hexDigit (c.toNat % 16)]
  else [c]

def jsonQuoteString (s : String) : String :=
  ⟨'"' :: s.data.foldr (fun c acc => jsonEscapeChar c ++ acc) ['"']⟩

mutual

def jsonRenderValue : Json → String
  | .null => "null"
  | .bool true => "true"
  | .bool false => "false"
  | .num lex => lex
  | .str s => jsonQuoteString s
  | .arr xs => "[" ++ jsonRenderList xs ++ "]"
  | .obj fs => "\x7b" ++ jsonRenderFields fs ++ "\x7d"

def jsonRenderList : List Json → String
  | [] => ""
  | [x] => jsonRenderValue x
  | x :: y :: xs => jsonRenderValue x ++ "," ++ jsonRenderList (y :: xs)

def jsonRenderFields : List (String × Json) → String
  | [] => ""
  | [(k, v)] => jsonQuoteString k ++ ":" ++ jsonRenderValue v
  | (k, v) :: f :: fs =>
      jsonQuoteString k ++ ":" ++ jsonRenderValue v ++ "," ++ jsonRenderFields (f :: fs)

end

/-- `JSON.stringify` of a `ToolResult` object (`undefined` fields are
dropped). -/
def jsonStringifyToolResult (tr : ToolResult) : String :=
  "\x7b" ++
    joinSep ","
      (["\"success\":" ++ (if tr.success then "true" else "false")] ++
        (match tr.data with
         | some d => ["\"data\":" ++ jsonRenderValue d]
         | none => []) ++
        (match tr.error with
         | some e => ["\"error\":" ++ jsonQuoteString e]
         | none => [])) ++
    "\x7d"

/-- `JSON.stringify({ error: msg })`. -/
def jsonStringifyErrEnvelope (msg : String) : String :=
  "\x7b\"error\":" ++ jsonQuoteString msg ++ "\x7d"

/-! ### The loop itself -/

/-- The five tool names `executeToolWithArgs` dispatches on. -/
def knownToolNames : List String :=
  ["readFile", "writeFile", "listFiles", "searchCode", "runCommand"]

/-- `AgentWorker.executeToolWithArgs`: dispatch by tool name (the default
branch throws `Unknown tool: <name>`); the per-name argument projection
is absorbed into `tool.exec`. -/
def executeToolWithArgs (tool : AgentTool) (args : List (String × String)) :
    Except String ToolResult :=
  if knownToolNames.contains tool.name then tool.exec args
  else .error ("Unknown tool: " ++ tool.name)

/-- `ToolsProvider.getTool`: find by name. -/
def getTool (tp : List AgentTool) (name : String) : Option AgentTool :=
  tp.find? (fun t => t.name = name)

/-- Processing of one tool call inside a round: an unregistered name
appends an error-envelope tool message and moves on; a registered tool
is recorded in `toolsUsed` and its thrown failure is wrapped into the
same envelope instead of propagating. -/
def processToolCall (tp : List AgentTool)
    (st : List WorkerMessage × List String) (tc : ToolCall) :
    List WorkerMessage × List String :=
  match getTool tp tc.name with
  | none =>
      (st.1 ++ [{ role := .tool
                  content := jsonStringifyErrEnvelope ("Tool \"" ++ tc.name ++ "\" not found")
                  toolName := some tc.name, toolCallId := some tc.id }],
       st.2)
  | some tool =>
      let used := st.2 ++ [tc.name]
      match executeToolWithArgs tool tc.arguments with
      | .ok result =>
          (st.1 ++ [{ role := .tool
                      content := jsonStringifyToolResult result
                      toolName := some tc.name, toolCallId := some tc.id }],
           used)
      | .error e =>
          (st.1 ++ [{ role := .tool
                      content := jsonStringifyErrEnvelope
                        ("Error executing tool \"" ++ tc.name ++ "\": " ++ jsErrorToString e)
                      toolName := some tc.name, toolCallId := some tc.id }],
           used)

/-- One round's sequential processing of the model's tool calls. -/
def execRound (tp : List AgentTool) (calls : List ToolCall)
    (st : List WorkerMessage × List String) : List WorkerMessage × List String :=
  calls.foldl (processToolCall tp) st

/-- The model oracle: message list in, assistant content and tool-call
requests out (`Except.error` = the HTTP call threw). -/
abbrev LLMOracle := List WorkerMessage → Except String LLMResponse

def maxToolCallsMsg : String :=
  "Maximum number of tool calls exceeded. Task could not be completed."

/-- `AgentWorker.executeWithToolLoop`, with the remaining round budget as
fuel; also returns the number of model calls made. -/
def executeWithToolLoop (tp : List AgentTool) (llm : LLMOracle) :
    Nat → List WorkerMessage → List String →
    Except String WorkerResponse × Nat
  | 0, _, used =>
      (.ok { result := maxToolCallsMsg, success := false
             toolsUsed := some used, error := some "Max tool calls exceeded" }, 0)
  | n + 1, msgs, used =>
    match llm msgs with
    | .error e => (.error e, 1)
    | .ok resp =>
      let msgs2 := msgs ++ [{ role := .assistant, content := resp.content }]
      match resp.toolCalls with
      | none => (.ok { result := resp.content, success := true, toolsUsed := some used }, 1)
      | some [] => (.ok { result := resp.content, success := true, toolsUsed := some used }, 1)
      | some (c :: cs) =>
          let st := execRound tp (c :: cs) (msgs2, used)
          let rec2 := executeWithToolLoop tp llm n st.1 st.2
          (rec2.1, rec2.2 + 1)

/-- The default round cap of `executeWithToolLoop`. -/
def defaultMaxToolCalls : Nat := 10

/-- The message list built by `AgentWorker.execute`: the role-specific
system prompt (`request.systemPrompt || default`), the truthy context as
a user message, then the task as a user message. -/
def workerMessages (defaultSystemPrompt : String) (request : WorkerRequest) :
    List WorkerMessage :=
  [({ role := .system, content := orDefault request.systemPrompt defaultSystemPrompt } :
      WorkerMessage)] ++
    (match request.context with
     | some c => if c ≠ "" then [({ role := .user, content := c } : WorkerMessage)] else []
     | none => []) ++
    [({ role := .user, content := request.task } : WorkerMessage)]

/-- `AgentWorker.execute`: build the message list, run the loop, convert
a thrown error into an empty-result failure. -/
def workerExecute (tp : List AgentTool) (llm : LLMOracle) (name : String)
    (defaultSystemPrompt : String) (request : WorkerRequest) :
    WorkerResponse × Nat :=
  match executeWithToolLoop tp llm defaultMaxToolCalls
      (workerMessages defaultSystemPrompt request) [] with
  | (.ok r, k) => (r, k)
  | (.error e, k) =>
      ({ result := "", success := false
         error := some ("Error in worker " ++ name ++ ": " ++ jsErrorToString e) }, k)

end AgentsWorkshop
namespace AgentsWorkshop

/-- C2 -/
theorem toolLoop_cap (tp : List AgentTool) (llm : LLMOracle)
    (h : ∀ msgs, ∃ resp c cs, llm msgs = .ok resp ∧ resp.toolCalls = some (c :: cs)) :
    defaultMaxToolCalls = 10 ∧
    ∀ n msgs used,
      (executeWithToolLoop tp llm n msgs used).2 = n ∧
      ∃ used2,
        (executeWithToolLoop tp llm n msgs used).1 =
          .ok { result := maxToolCallsMsg, success := false
                toolsUsed := some used2, error := some "Max tool calls exceeded" } := by
  refine ⟨rfl, ?_⟩
  intro n
  induction n with
  | zero => exact fun msgs used => ⟨rfl, used, rfl⟩
  | succ n ih =>
      intro msgs used
      obtain ⟨resp, c, cs, hllm, htc⟩ := h msgs
      simp only [executeWithToolLoop, hllm, htc]
      obtain ⟨h1, used2, h2⟩ :=
        ih (execRound tp (c :: cs)
              (msgs ++ [{ role := .assistant, content := resp.content }], used)).1
           (execRound tp (c :: cs)
              (msgs ++ [{ role := .assistant, content := resp.content }], used)).2
      exact ⟨by rw [h1], used2, h2⟩

def w2LLM : LLMOracle := fun _ =>
  .ok { content := "", toolCalls := some [{ name := "readFile", id := "1", arguments := [] }] }

/-- witness for C2 -/
theorem toolLoop_cap_witness :
    defaultMaxToolCalls = 10 ∧
      (executeWithToolLoop [] w2LLM 10 [] []).2 = 10 ∧
      ∃ used2,
        (executeWithToolLoop [] w2LLM 10 [] []).1 =
          .ok { result := maxToolCallsMsg, success := false
                toolsUsed := some used2, error := some "Max tool calls exceeded" } := by
  have h := toolLoop_cap [] w2LLM (fun msgs => ⟨_, _, _, rfl, rfl⟩)
  exact ⟨h.1, (h.2 10 [] []).1, (h.2 10 [] []).2⟩

end AgentsWorkshop
namespace AgentsWorkshop

/-- C3 -/
theorem toolCall_isolation (tp : List AgentTool) :
    (∀ st tc rest, execRound tp (tc :: rest) st = execRound tp rest (processToolCall tp st tc)) ∧
    (∀ msgs used tc, getTool tp tc.name = none →
       processToolCall tp (msgs, used) tc =
         (msgs ++ [{ role := .tool
                     content := jsonStringifyErrEnvelope ("Tool \"" ++ tc.name ++ "\" not found")
                     toolName := some tc.name, toolCallId := some tc.id }], used)) ∧
    (∀ msgs used tc tool e, getTool tp tc.name = some tool →
       executeToolWithArgs tool tc.arguments = .error e →
       processToolCall tp (msgs, used) tc =
         (msgs ++ [{ role := .tool
                     content := jsonStringifyErrEnvelope
                       ("Error executing tool \"" ++ tc.name ++ "\": " ++ jsErrorToString e)
                     toolName := some tc.name, toolCallId := some tc.id }], used ++ [tc.name])) ∧
    (∀ calls st, ((execRound tp calls st).1).length = st.1.length + calls.length) := by
  have hone : ∀ st tc, ((processToolCall tp st tc).1).length = st.1.length + 1 := by
    intro st tc
    unfold processToolCall
    cases hg : getTool tp tc.name with
    | none => simp [hg]
    | some tool =>
        cases hx : executeToolWithArgs tool tc.arguments with
        | ok r => simp [hg, hx]
        | error e => simp [hg, hx]
  refine ⟨fun st tc rest => rfl, ?_, ?_, ?_⟩
  · intro msgs used tc h
    simp [processToolCall, h]
  · intro msgs used tc tool e h1 h2
    simp [processToolCall, h1, h2]
  · intro calls
    induction calls with
    | nil => intro st; simp [execRound]
    | cons tc rest ih =>
        intro st
        have : execRound tp (tc :: rest) st = execRound tp rest (processToolCall tp st tc) := rfl
        rw [this, ih, hone]
        simp only [List.length_cons]
        omega

def w3Tool : AgentTool := { name := "readFile", exec := fun _ => .error "boom" }

/-- witness for C3 -/
theorem toolCall_isolation_witness :
    processToolCall [w3Tool] ([], []) { name := "nope", id := "1", arguments := [] } =
        ([{ role := .tool, content := jsonStringifyErrEnvelope "Tool \"nope\" not found"
            toolName := some "nope", toolCallId := some "1" }], []) ∧
      processToolCall [w3Tool] ([], []) { name := "readFile", id := "2", arguments := [] } =
        ([{ role := .tool
            content := jsonStringifyErrEnvelope
              ("Error executing tool \"readFile\": " ++ jsErrorToString "boom")
            toolName := some "readFile", toolCallId := some "2" }], ["readFile"]) := by
  constructor
  · have h := (toolCall_isolation [w3Tool]).2.1 [] []
      { name := "nope", id := "1", arguments := [] } (by rfl)
    simpa using h
  · have h := (toolCall_isolation [w3Tool]).2.2.1 [] []
      { name := "readFile", id := "2", arguments := [] } w3Tool "boom" (by rfl) (by rfl)
    simpa using h

end AgentsWorkshop
namespace AgentsWorkshop

theorem toolLoop_failure_is_cap (tp : List AgentTool) (llm : LLMOracle) :
    ∀ n msgs used r, (executeWithToolLoop tp llm n msgs used).1 = .ok r →
      r.success = false → r.result = maxToolCallsMsg := by
  intro n
  induction n with
  | zero =>
      intro msgs used r h _
      simp only [executeWithToolLoop] at h
      cases h
      rfl
  | succ n ih =>
      intro msgs used r h hf
      cases hllm : llm msgs with
      | error e => simp [executeWithToolLoop, hllm] at h
      | ok resp =>
          cases htc : resp.toolCalls with
          | none =>
              simp [executeWithToolLoop, hllm, htc] at h
              rw [← h] at hf
              simp at hf
          | some calls =>
              cases calls with
              | nil =>
                  simp [executeWithToolLoop, hllm, htc] at h
                  rw [← h] at hf
                  simp at hf
              | cons c cs =>
                  simp only [executeWithToolLoop, hllm, htc] at h
                  exact ih _ _ _ h hf

/-- C7 amended -/
theorem worker_failure_result (tp : List AgentTool) (llm : LLMOracle)
    (name defaultSystemPrompt : String) (request : WorkerRequest)
    (hf : (workerExecute tp llm name defaultSystemPrompt request).1.success = false) :
    (workerExecute tp llm name defaultSystemPrompt request).1.result = "" ∨
      (workerExecute tp llm name defaultSystemPrompt request).1.result = maxToolCallsMsg := by
  unfold workerExecute at hf ⊢
  rcases hloop : executeWithToolLoop tp llm defaultMaxToolCalls
      (workerMessages defaultSystemPrompt request) [] with ⟨res, k⟩
  rw [hloop] at hf
  cases res with
  | ok r =>
      right
      simp only at hf ⊢
      exact toolLoop_failure_is_cap tp llm defaultMaxToolCalls
        (workerMessages defaultSystemPrompt request) [] r (by rw [hloop]) hf
  | error e => left; rfl

end AgentsWorkshop
namespace AgentsWorkshop

def c7LLM : LLMOracle := fun _ =>
  .ok { content := "", toolCalls := some [{ name := "x", id := "1", arguments := [] }] }

/-- C7 counterexample -/
theorem worker_failure_result_counterexample :
    (workerExecute [] c7LLM "W" "sys" { task := "t" }).1.success = false ∧
      (workerExecute [] c7LLM "W" "sys" { task := "t" }).1.result = maxToolCallsMsg ∧
      maxToolCallsMsg ≠ "" :=
  ⟨rfl, rfl, by decide⟩

/-- witness for C7 -/
theorem worker_failure_result_witness :
    (workerExecute [] c7LLM "W" "sys" { task := "t" }).1.result = "" ∨
      (workerExecute [] c7LLM "W" "sys" { task := "t" }).1.result = maxToolCallsMsg :=
  worker_failure_result [] c7LLM "W" "sys" { task := "t" } rfl

end AgentsWorkshop
namespace AgentsWorkshop

/-! ## `Agent.execute` (graph variant) and `AgentExecutor.execute`

The graph invocation / orchestrator call is passed as an `Except`
outcome (`error` = the awaited call threw); `fileOp` models
`applyPendingChanges` / `rejectPendingChanges`; `pending` models the
keys of `pendingFileChanges`.  The returned record carries the
`ExecutionResult` delivered to the caller, the final value of the
`_isExecuting` flag (`finally` semantics), and whether the graph or
orchestrator was actually invoked. -/

structure ExecutionResult where
  success : Bool
  response : Option String := none
  error : Option String := none
deriving DecidableEq, Repr

structure GraphFinalState where
  error : Option String := none
  finalResult : Option String := none
deriving DecidableEq, Repr

structure AgentRun where
  result : ExecutionResult
  isExecuting : Bool
  invoked : Bool
deriving DecidableEq, Repr

def acceptPre : String := "Accept changes for file:"

def rejectPre : String := "Reject changes for file:"

/-- `Agent.handleFileChangeCommand`. -/
def handleFileChangeCommand (query : String) (pending : List String)
    (fileOp : Bool → String → Except String Bool) : ExecutionResult :=
  let isAccept := strStartsWith query acceptPre
  let filePath :=
    strTrim (strDrop query (if isAccept then acceptPre.length else rejectPre.length))
  if ¬ (pending.contains filePath) then
    { success := false, error := some ("No pending changes found for file: " ++ filePath) }
  else
    match fileOp isAccept filePath with
    | .error e =>
        { success := false
          error := some ("Error handling file change command: " ++ jsErrorToString e) }
    | .ok true =>
        { success := true
          response := some ("Changes were successfully " ++
            (if isAccept then "applied to" else "rejected for") ++ " " ++ filePath ++ ".") }
    | .ok false =>
        { success := false
          error := some ("Could not " ++ (if isAccept then "apply" else "reject") ++
            " changes for " ++ filePath ++ ".") }

/-- `Agent.execute` (`part_003`): accept/reject commands are dispatched
before the `isExecuting` guard; a guarded run sets the flag, maps the
graph outcome to an `ExecutionResult`, and resets the flag in
`finally`. -/
def agentExecute (isExecuting : Bool) (query : String) (hasWorkspaceFolder : Bool)
    (pending : List String) (fileOp : Bool → String → Except String Bool)
    (graph : String → Except String GraphFinalState) : AgentRun :=
  if strStartsWith query acceptPre || strStartsWith query rejectPre then
    { result := handleFileChangeCommand query pending fileOp
      isExecuting := isExecuting, invoked := false }
  else if isExecuting then
    { result := { success := false, error := some "Another task is already being executed" }
      isExecuting := isExecuting, invoked := false }
  else if ¬ hasWorkspaceFolder then
    { result := { success := false
                  error := some "No workspace folder is open. Please open a folder in VS Code to use the agent features." }
      isExecuting := false, invoked := false }
  else if strTrim query = "" then
    { result := { success := false, error := some "Empty or invalid query provided" }
      isExecuting := false, invoked := false }
  else
    match graph (strTrim query) with
    | .error e =>
        if strIncludes e "workspace folder" then
          { result := { success := false
                        error := some "The agent cannot access workspace files. Please make sure a folder is open in VS Code." }
            isExecuting := false, invoked := true }
        else
          { result := { success := false
                        error := some ("Error executing task: " ++ jsErrorToString e) }
            isExecuting := false, invoked := true }
    | .ok st =>
        if optTruthy st.error then
          { result := { success := false, error := st.error }
            isExecuting := false, invoked := true }
        else
          { result := { success := true
                        response := some (orDefault st.finalResult
                          "Task completed but no results were generated") }
            isExecuting := false, invoked := true }

/-- The orchestrator's response as consumed by `AgentExecutor.execute`
(its unread `plan`/`subTasks` fields are omitted). -/
structure OrchResponse where
  success : Bool
  results : Option String := none
  error : Option String := none
deriving DecidableEq, Repr

/-- `AgentExecutor.execute` (`tools.ts`): the guard is checked first for
every query. -/
def agentExecutorExecute (isExecuting : Bool) (query : String)
    (hasWorkspaceFolder : Bool) (orch : String → Except String OrchResponse) : AgentRun :=
  if isExecuting then
    { result := { success := false, error := some "Another task is already being executed" }
      isExecuting := isExecuting, invoked := false }
  else if ¬ hasWorkspaceFolder then
    { result := { success := false
                  error := some "No workspace folder is open. Please open a folder in VS Code to use the agent features." }
      isExecuting := false, invoked := false }
  else
    match orch query with
    | .error e =>
        if strIncludes e "workspace folder" then
          { result := { success := false
                        error := some "The agent cannot access workspace files. Please make sure a folder is open in VS Code." }
            isExecuting := false, invoked := true }
        else
          { result := { success := false
                        error := some ("Error executing task: " ++ jsErrorToString e) }
            isExecuting := false, invoked := true }
    | .ok resp =>
        if resp.success = false then
          { result := { success := false
                        error := some (orDefault resp.error "Task execution failed") }
            isExecuting := false, invoked := true }
        else
          { result := { success := true
                        response := some (orDefault resp.results
                          "Task completed successfully, but no results were generated") }
            isExecuting := false, invoked := true }

/-- A file-change collaborator that accepts every change. -/
def okFileOp : Bool → String → Except String Bool := fun _ _ => .ok true

end AgentsWorkshop
namespace AgentsWorkshop

/-- C9 amended -/
theorem execute_mutual_exclusion :
    (∀ query hasW pending fileOp graph,
       strStartsWith query acceptPre = false → strStartsWith query rejectPre = false →
       agentExecute true query hasW pending fileOp graph =
         { result := { success := false, error := some "Another task is already being executed" }
           isExecuting := true, invoked := false }) ∧
    (∀ query hasW orch,
       agentExecutorExecute true query hasW orch =
         { result := { success := false, error := some "Another task is already being executed" }
           isExecuting := true, invoked := false }) := by
  constructor
  · intro query hasW pending fileOp graph h1 h2
    simp [agentExecute, h1, h2]
  · intro query hasW orch
    simp [agentExecutorExecute]

/-- C9 counterexample -/
theorem execute_mutual_exclusion_counterexample :
    (agentExecute true "Accept changes for file: a.ts" true ["a.ts"] okFileOp
          (fun _ => .error "x")).result =
        { success := true, response := some "Changes were successfully applied to a.ts." } ∧
      (agentExecute true "Accept changes for file: a.ts" true ["a.ts"] okFileOp
          (fun _ => .error "x")).result.error ≠
        some "Another task is already being executed" ∧
      (agentExecute true "Accept changes for file: a.ts" true ["a.ts"] okFileOp
          (fun _ => .error "x")).result.success = true := by
  decide

/-- witness for C9 -/
theorem execute_mutual_exclusion_witness :
    agentExecute true "do something" true [] okFileOp (fun _ => .error "x") =
        { result := { success := false, error := some "Another task is already being executed" }
          isExecuting := true, invoked := false } ∧
      agentExecutorExecute true "do something" true (fun _ => .error "x") =
        { result := { success := false, error := some "Another task is already being executed" }
          isExecuting := true, invoked := false } :=
  ⟨execute_mutual_exclusion.1 "do something" true [] okFileOp (fun _ => .error "x")
      (by decide) (by decide),
    execute_mutual_exclusion.2 "do something" true (fun _ => .error "x")⟩

/-- C10 -/
theorem execute_releases_flag :
    (∀ query hasW pending fileOp graph,
       (agentExecute false query hasW pending fileOp graph).isExecuting = false) ∧
    (∀ query hasW orch,
       (agentExecutorExecute false query hasW orch).isExecuting = false) := by
  constructor
  · intro query hasW pending fileOp graph
    unfold agentExecute
    split_ifs <;> (try rfl) <;> (split <;> split_ifs <;> rfl)
  · intro query hasW orch
    unfold agentExecutorExecute
    split_ifs <;> (try rfl) <;> (split <;> split_ifs <;> rfl)

end AgentsWorkshop
namespace AgentsWorkshop

/-- C8 amended -/
theorem failure_has_no_response :
    (∀ apiKey results taskQuery llm,
       (synthesizeResults apiKey results taskQuery llm).1.error ≠ none →
       (synthesizeResults apiKey results taskQuery llm).1.finalResult ≠ none) ∧
    (∀ isExec query hasW pending fileOp graph,
       (agentExecute isExec query hasW pending fileOp graph).result.success = false →
       (agentExecute isExec query hasW pending fileOp graph).result.response = none) ∧
    (∀ isExec query hasW orch,
       (agentExecutorExecute isExec query hasW orch).result.success = false →
       (agentExecutorExecute isExec query hasW orch).result.response = none) := by
  refine ⟨?_, ?_, ?_⟩
  · intro apiKey results taskQuery llm
    unfold synthesizeResults
    (repeat' split) <;> simp [synthCatch] <;> (repeat' split) <;> simp [synthCatch]
  · intro isExec query hasW pending fileOp graph
    unfold agentExecute handleFileChangeCommand
    (repeat' split) <;> simp <;> (repeat' split) <;> simp
  · intro isExec query hasW orch
    unfold agentExecutorExecute
    (repeat' split) <;> simp <;> (repeat' split) <;> simp

end AgentsWorkshop
namespace AgentsWorkshop

/-- C8 counterexample -/
theorem failure_has_no_response_counterexample :
    (planParseContent "no json here").error = some planParseErrMsg ∧
      (planParseContent "no json here").nextStep = ENDtoken ∧
      agentExecute false "do something" true [] okFileOp
          (fun _ => .ok { error := some planParseErrMsg }) =
        { result := { success := false, error := some planParseErrMsg, response := none }
          isExecuting := false, invoked := true } ∧
      ({ success := false, error := some planParseErrMsg, response := none } :
          ExecutionResult).response = none :=
  ⟨rfl, rfl, by decide, rfl⟩

/-- witness for C8 -/
theorem failure_has_no_response_witness :
    (synthesizeResults none [] none (fun _ => .ok "x")).1.finalResult ≠ none ∧
      (agentExecute true "do something" true [] okFileOp (fun _ => .error "boom")).result.response =
        none ∧
      (agentExecutorExecute true "do something" true (fun _ => .error "boom")).result.response = none :=
  ⟨failure_has_no_response.1 none [] none (fun _ => .ok "x") (by decide),
    failure_has_no_response.2.1 true "do something" true [] okFileOp (fun _ => .error "boom") (by decide),
    failure_has_no_response.2.2 true "do something" true (fun _ => .error "boom") (by decide)⟩

end AgentsWorkshop
